import Mathlib

/-!
Verification of the discord-ircv3 bridge (main.go) against its specification.

The program's strings are byte sequences; we embed them as `List Char`, one
`Char` per byte (all bytes handled by the relevant code paths are single-byte
characters; the zero-width space U+200B written by the formatter is kept as a
single `Char`, matching the spec's description of it as one character).
-/

/-! ## Control bytes (main.go lines 22-32) -/

def fBold : Char := '\x02'

def fItalics : Char := '\x1D'

def fUnderline : Char := '\x1F'

def fStrikethrough : Char := '\x1E'

def fMonospace : Char := '\x11'

def fColor : Char := '\x03'

def fColorHex : Char := '\x04'

def fReverse : Char := '\x16'

def fReset : Char := '\x0F'

/-- The backquote character, written by code point to keep source lines plain. -/
def backquote : Char := Char.ofNat 96

/-! ## Correlation store (main.go lines 52-53, 379-380, 495-496)

The two global multimaps `idIRCDiscord` and `idDiscordIRC` are the spec's
`bySourceID` and `byTargetID` (sources are IRC message ids, targets Discord
message ids). -/

structure CorrelationStore where
  idIRCDiscord : String → List String
  idDiscordIRC : String → List String

def emptyStore : CorrelationStore :=
  { idIRCDiscord := fun _ => [], idDiscordIRC := fun _ => [] }

/-- Go `m[k] = append(m[k], v)` on a map modelled as a total function. -/
def mapAppend (f : String → List String) (k v : String) : String → List String :=
  fun q => if q = k then f k ++ [v] else f q

/-- Pair recording as done in ircHandler, main.go lines 495-496:
`idIRCDiscord[msgID] = append(idIRCDiscord[msgID], discordID)` and
`idDiscordIRC[discordID] = append(idDiscordIRC[discordID], msgID)`. -/
def recordPairIRC (st : CorrelationStore) (msgID discordID : String) : CorrelationStore :=
  { idIRCDiscord := mapAppend st.idIRCDiscord msgID discordID,
    idDiscordIRC := mapAppend st.idDiscordIRC discordID msgID }

/-- Pair recording as done in discordSend, main.go lines 379-380:
`idIRCDiscord[id] = append(idIRCDiscord[id], m.ID)` then
`idDiscordIRC[m.ID] = append(idIRCDiscord[m.ID], id)` — note that line 380
reads `idIRCDiscord[m.ID]` (not `idDiscordIRC[m.ID]`) as the append base. -/
def recordPairSend (st : CorrelationStore) (id mID : String) : CorrelationStore :=
  let byS := mapAppend st.idIRCDiscord id mID
  { idIRCDiscord := byS,
    idDiscordIRC := fun q => if q = mID then byS mID ++ [id] else st.idDiscordIRC q }

/-- Spec-named lookup: `lookupBySource(sourceID)` returns `bySourceID[sourceID]`. -/
def lookupBySource (st : CorrelationStore) (sourceID : String) : List String :=
  st.idIRCDiscord sourceID

/-- Spec-named lookup: `lookupByTarget(targetID)` returns `byTargetID[targetID]`. -/
def lookupByTarget (st : CorrelationStore) (targetID : String) : List String :=
  st.idDiscordIRC targetID

/-- Reply lookup toward Discord, main.go lines 390-392: if
`ids := idIRCDiscord[tag]` is non-empty, `replyID = ids[len(ids)-1]`. -/
def ircReplyLookup (byS : String → List String) (tag : String) : String :=
  let ids := byS tag
  if ids.length > 0 then ids.getD (ids.length - 1) "" else ""

/-- Reply lookup toward IRC, main.go lines 676-678: if
`ids := idDiscordIRC[ref]` is non-empty, `replyID = ids[0]`. -/
def discordReplyLookup (byT : String → List String) (ref : String) : String :=
  let ids := byT ref
  if ids.length > 0 then ids.getD 0 "" else ""

/-! ## Newline stripping (main.go lines 526-530, 706)

`strings.NewReplacer("\r\n", " ", "\n", " ", "\r", " ")` scans left to right,
replacing the first-listed pattern matching at each position. -/

def replacerNewline : List Char → List Char
  | '\r' :: '\n' :: rest => ' ' :: replacerNewline rest
  | '\n' :: rest => ' ' :: replacerNewline rest
  | '\r' :: rest => ' ' :: replacerNewline rest
  | c :: rest => c :: replacerNewline rest
  | [] => []

/-- The text parameter of the body PRIVMSG built in discordMessage
(main.go lines 702-714): `prefix + body` with the newline-stripped body. -/
def discordPrivmsgParam (pfx : List Char) (formatted : List Char) : List Char :=
  pfx ++ replacerNewline formatted

/-! ## Sender nick mangling (main.go lines 694-701) -/

/-- Go byte length of a string embedded as its character list. -/
def utf8Len (s : List Char) : Nat := s.foldl (fun n c => n + c.utf8Size) 0

/-- The display name before mangling: `nick := m.Member.Nick;
if nick == "" { nick = m.Author.Username }` (main.go lines 694-697). -/
def rawNick (memberNick username : String) : String :=
  if memberNick = "" then username else memberNick

/-- main.go lines 694-701: when the display name is longer than one byte,
insert U+200B after its first rune (`utf8.DecodeRuneInString` returns the
first rune; `nick[size:]` is the remaining bytes). -/
def displayNick (memberNick username : String) : String :=
  let nick := rawNick memberNick username
  if 1 < utf8Len nick.data then
    match nick.data with
    | [] => nick
    | c :: rest => ⟨c :: '\u200B' :: rest⟩
  else nick

/-! ## PRIVMSG body handling (main.go lines 500-513)

Helpers mirror `strings.TrimPrefix`, `strings.Trim(s, "\x01")` and
`strings.Cut(s, " ")`. -/

def hasPrefixOf (s p : List Char) : Bool := s.take p.length = p

def trimPrefixOf (s p : List Char) : List Char :=
  if hasPrefixOf s p then s.drop p.length else s

/-- `strings.Trim` with a one-character cutset: strip the character from both
ends. -/
def trimCutset (s : List Char) (c : Char) : List Char :=
  ((s.dropWhile (· = c)).reverse.dropWhile (· = c)).reverse

/-- `strings.Cut(s, " ")`: the part before the first space and the part after
it (empty when there is no space). -/
def cutSpace : List Char → List Char × List Char
  | [] => ([], [])
  | c :: rest =>
    if c = ' ' then ([], rest)
    else
      let p := cutSpace rest
      (c :: p.1, p.2)

/-- Models main.go lines 500-513, the body-processing step of the PRIVMSG case
of ircHandler. `none` denotes the runtime panic raised by evaluating
`body[0]` when `body` is the empty string (Go index out of range, which
crashes the process since the handler runs in an unrecovered goroutine);
`some none` is a message dropped as an unknown CTCP; `some (some b)` means
handling proceeds to the send step (line 514 onward) with body `b`. -/
def privmsgBody (currentNick replyID rawBody : List Char) : Option (Option (List Char)) :=
  let body := if replyID ≠ [] then trimPrefixOf rawBody (currentNick ++ (": ").data) else rawBody
  match body with
  | [] => none
  | c :: rest =>
    if c = '\x01' then
      let inner := trimCutset rest '\x01'
      let p := cutSpace inner
      if p.1 ≠ ("ACTION").data then some none
      else some (some (fItalics :: p.2))
    else some (some body)

/-! ## Control-code parser discordFormat (main.go lines 157-285) -/

/-- main.go lines 157-162: the active-emphasis value type. -/
structure ircStyle where
  italics : Bool := false
  bold : Bool := false
  underline : Bool := false
  strikethrough : Bool := false
deriving DecidableEq, Repr

/-- The scan state of the discordFormat loop: the two style states, the raw
flag, the lazily tracked URL end, and the output accumulated so far. -/
structure ScanState where
  prevStyle : ircStyle := {}
  nextStyle : ircStyle := {}
  raw : Bool := false
  urlEnd : Nat := 0
  out : List Char := []
deriving DecidableEq, Repr

def initScan : ScanState := {}

/-- Safe byte access used where Go indexing is guarded by a bounds check. -/
def charAt (s : List Char) (i : Nat) : Char := s.getD i (Char.ofNat 0)

/-- main.go lines 164-170. -/
def isDigit (s : List Char) (i : Nat) : Bool :=
  if i < s.length then
    let c := charAt s i
    decide ('0' ≤ c ∧ c ≤ '9')
  else false

/-- `strings.IndexByte`: index of the first occurrence, -1 when absent. -/
def indexByte : List Char → Char → Int
  | [], _ => -1
  | c :: rest, b =>
    if c = b then 0
    else
      let r := indexByte rest b
      if r < 0 then -1 else r + 1

/-- Whitespace class of Go regexp `\s`. -/
def isGoSpace (c : Char) : Bool :=
  c = ' ' ∨ c = '\t' ∨ c = '\n' ∨ c = '\x0b' ∨ c = '\x0c' ∨ c = '\r'

/-- Character class `[^\s<]` of patternURL (main.go line 173). -/
def urlBodyChar (c : Char) : Bool := ¬ isGoSpace c ∧ c ≠ '<'

/-- Final character class of patternURL: not `<` `.` `,` `:` `;` `"` `'` `)`
`]` and not whitespace. -/
def urlEndChar (c : Char) : Bool :=
  urlBodyChar c ∧ c ≠ '.' ∧ c ≠ ',' ∧ c ≠ ':' ∧ c ≠ ';' ∧ c ≠ '"' ∧
    c ≠ Char.ofNat 39 ∧ c ≠ ')' ∧ c ≠ ']'

/-- The largest index `k ≥ 1` of `body` whose character is in the final class
(the greedy `[^\s<]+` backtracks minimally from the right). -/
def lastEndIdx (body : List Char) : Option Nat :=
  (List.range body.length).foldl
    (fun acc k => if 1 ≤ k ∧ urlEndChar (charAt body k) then some k else acc) none

/-- `patternURL.FindStringIndex(s)` (main.go line 173) for the anchored pattern
`^(https?://[^\s<]+[^<.,:;"')\]\s])`: returns the end offset of the match. -/
def matchURL (s : List Char) : Option Nat :=
  let scheme : Option Nat :=
    if s.take 8 = ("https://").data then some 8
    else if s.take 7 = ("http://").data then some 7
    else none
  match scheme with
  | none => none
  | some sl =>
    let body := (s.drop sl).takeWhile urlBodyChar
    match lastEndIdx body with
    | none => none
    | some k => some (sl + k + 1)

/-- URL-span tracking, main.go lines 189-193: when the position has reached the
previous URL's end, try to match a URL at the current position. -/
def urlUpdate (msg : List Char) (i : Nat) (st : ScanState) : ScanState :=
  if st.urlEnd ≤ i then
    match matchURL (msg.drop i) with
    | some e => { st with urlEnd := i + e }
    | none => st
  else st

/-- The final value of the loop variable after the fColor case
(main.go lines 208-222): consume 1-2 foreground digits and an optional
comma plus 1-2 background digits. The Go mutation sequence is expanded into
its two foreground-digit-count branches. -/
def colorEnd (msg : List Char) (i : Nat) : Nat :=
  if isDigit msg (i + 1) then
    if isDigit msg (i + 2) then
      if isDigit msg (i + 4) ∧ charAt msg (i + 3) = ',' then
        if isDigit msg (i + 5) then i + 5 else i + 4
      else i + 2
    else
      if isDigit msg (i + 3) ∧ charAt msg (i + 2) = ',' then
        if isDigit msg (i + 4) then i + 4 else i + 3
      else i + 1
  else i

/-- Outcome of the switch of main.go lines 194-244 at one position: either
`skip d` (a `continue` that leaves `d` extra bytes consumed beyond the current
one), or `emit nextStyle raw write` giving the updated pending style, the
updated raw flag, and the pending `write` string. -/
inductive SwitchOut where
  | skip (d : Nat)
  | emit (nextStyle : ircStyle) (raw : Bool) (write : List Char)
deriving DecidableEq, Repr

/-- The switch of main.go lines 194-244. -/
def switchStep (msg : List Char) (i : Nat) (st : ScanState) (c : Char) : SwitchOut :=
  if c = fBold then .emit { st.nextStyle with bold := true } st.raw []
  else if c = fItalics then .emit { st.nextStyle with italics := true } st.raw []
  else if c = fUnderline then .emit { st.nextStyle with underline := true } st.raw []
  else if c = fStrikethrough then .emit { st.nextStyle with strikethrough := true } st.raw []
  else if c = fReset then .emit {} st.raw []
  else if c = fMonospace ∨ c = fReverse then .skip 0
  else if c = fColor then .skip (colorEnd msg i - i)
  else if c = fColorHex then .skip 6
  else if c = backquote then
    if st.raw then .emit st.nextStyle false [c]
    else if 0 < indexByte (msg.drop (i + 1)) backquote then .emit st.nextStyle true [c]
    else .emit st.nextStyle st.raw [c]
  else if c = '\\' ∨ c = '*' ∨ c = '_' ∨ c = '~' then
    if st.urlEnd ≤ i then .emit st.nextStyle st.raw ['\\', c]
    else .emit st.nextStyle st.raw [c]
  else .emit st.nextStyle st.raw [c]

/-- The pending style of a switch outcome (`skip` leaves it unchanged). -/
def switchNextStyle (st : ScanState) : SwitchOut → ircStyle
  | .skip _ => st.nextStyle
  | .emit ns _ _ => ns

/-- The raw flag of a switch outcome (`skip` leaves it unchanged). -/
def switchRaw (st : ScanState) : SwitchOut → Bool
  | .skip _ => st.raw
  | .emit _ rw _ => rw

/-- The `write` string of a switch outcome (`none` for `continue` cases). -/
def switchWrite : SwitchOut → Option (List Char)
  | .skip _ => none
  | .emit _ _ w => some w

/-- main.go lines 248-282: emit closing markers when the style changed, then
the zero-width-space boundary, the opening markers and the pending write. -/
def emitPart (st : ScanState) (write : List Char) : ScanState :=
  if st.prevStyle = st.nextStyle then { st with out := st.out ++ write }
  else
    let closes :=
      (if st.prevStyle.italics then ("*").data else []) ++
      (if st.prevStyle.bold then ("**").data else []) ++
      (if st.prevStyle.underline then ("__").data else []) ++
      (if st.prevStyle.strikethrough then ("~~").data else [])
    let st1 := { st with out := st.out ++ closes, prevStyle := {} }
    if write = [] then st1
    else
      let opens :=
        (if st.nextStyle.strikethrough then ("~~").data else []) ++
        (if st.nextStyle.underline then ("__").data else []) ++
        (if st.nextStyle.bold then ("**").data else []) ++
        (if st.nextStyle.italics then ("*").data else [])
      { st1 with out := st1.out ++ '\u200B' :: opens ++ write, prevStyle := st.nextStyle }

/-- The scan loop of discordFormat (main.go lines 183-283). `fuel` bounds the
number of iterations; since the index strictly increases each iteration, fuel
equal to the scanned string's length is always sufficient. -/
def scanGo (msg : List Char) : Nat → Nat → ScanState → ScanState
  | 0, _, st => st
  | fuel + 1, i, st =>
    if h : i < msg.length then
      let c := msg.get ⟨i, h⟩
      if st.raw = true ∧ c ≠ backquote then
        scanGo msg fuel (i + 1) { st with out := st.out ++ [c] }
      else
        let st1 := urlUpdate msg i st
        match switchStep msg i st1 c with
        | .skip d => scanGo msg fuel (i + 1 + d) st1
        | .emit ns rw w =>
          let st2 := { st1 with nextStyle := ns, raw := rw }
          if w = [] ∧ i + 1 < msg.length then scanGo msg fuel (i + 1) st2
          else scanGo msg fuel (i + 1) (emitPart st2 w)
    else st

/-- discordFormat (main.go lines 175-285) with its final scan state exposed:
append the virtual reset and scan from position 0. -/
def discordFormatFinal (msg : List Char) : ScanState :=
  scanGo (msg ++ [fReset]) (msg.length + 1) 0 initScan

/-- discordFormat's output string (main.go line 284). -/
def discordFormat (msg : List Char) : List Char :=
  (discordFormatFinal msg).out

/-- discordFormat on a Lean string literal. -/
def discordFormatStr (s : String) : String :=
  ⟨discordFormat s.data⟩

/-! ## Markdown tree walker discordIRCFormat (main.go lines 536-658)

The rich-text document tree comes from the external discord-formatting
collaborator: container variants carry children visited between their enter
and exit events, leaf variants are visited once. Roster and time lookups are
external (discordgo session state, the time package); they enter as oracle
functions, `none` denoting a failed resolution. -/

inductive FormatNode where
  | text (content : String)
  | blockQuote (children : List FormatNode)
  | code (language content : String)
  | spoiler (children : List FormatNode)
  | url (u : String)
  | emoji (t : String)
  | channelMention (id : String)
  | roleMention (id : String)
  | userMention (id : String)
  | specialMention (mention : String)
  | timestamp (stamp format : String)
  | bold (children : List FormatNode)
  | underline (children : List FormatNode)
  | italics (children : List FormatNode)
  | strikethrough (children : List FormatNode)
deriving Repr

/-- Resolution oracles: `s.State.Channel(id).Name`, `s.State.Role(gid,id).Name`,
`s.State.Member(gid,id).Nick` and the time package's successful formatting of a
parsed timestamp for one of the seven known format codes. -/
structure ResolveCtx where
  channelName : String → Option String
  roleName : String → Option String
  memberNick : String → Option String
  timeFormat : Int → String → String

/-- `strconv.ParseInt(s, 10, 64)` (main.go line 615): optional sign, at least
one decimal digit, nothing else, and the value must fit in a signed 64-bit
integer. -/
def parseInt64 (s : String) : Option Int :=
  let p : Bool × List Char :=
    match s.data with
    | '+' :: rest => (false, rest)
    | '-' :: rest => (true, rest)
    | rest => (false, rest)
  if p.2 = [] then none
  else if p.2.all (fun c => decide ('0' ≤ c ∧ c ≤ '9')) then
    let n : Nat := p.2.foldl (fun acc c => acc * 10 + (c.toNat - 48)) 0
    let v : Int := if p.1 then -(n : Int) else (n : Int)
    if -(2 ^ 63) ≤ v ∧ v ≤ 2 ^ 63 - 1 then some v else none
  else none

/-- The seven format codes of the timestamp switch (main.go lines 621-642). -/
def knownFormats : List String := ["t", "T", "d", "D", "f", "F", "R"]

/-- The timestamp case of the walker (main.go lines 613-646): a parse failure
or an unknown format code emits the literal placeholder. -/
def emitTimestamp (ctx : ResolveCtx) (stamp format : String) : String :=
  match parseInt64 stamp with
  | none => "<invalid-timestamp>"
  | some unix =>
    if format ∈ knownFormats then ctx.timeFormat unix format
    else "<invalid-timestamp>"

mutual

/-- One node of the walk of main.go lines 539-656: the strings written between
the node's enter and exit events. Bold, underline, italics and strikethrough
write their single toggle byte on both events. -/
def emitNode (ctx : ResolveCtx) : FormatNode → String
  | .text content => content
  | .blockQuote cs => "“" ++ emitList ctx cs ++ "”"
  | .code language content =>
    ⟨[fMonospace]⟩ ++ ⟨[backquote]⟩ ++ (if language ≠ "" then language ++ " " else "") ++
      content ++ ⟨[backquote]⟩ ++ ⟨[fMonospace]⟩
  | .spoiler cs => ⟨[fReverse]⟩ ++ "||" ++ emitList ctx cs ++ "||" ++ ⟨[fReverse]⟩
  | .url u => u
  | .emoji t => ":" ++ t ++ ":"
  | .channelMention id =>
    match ctx.channelName id with
    | some n => "#" ++ n
    | none => "#invalid-channel"
  | .roleMention id =>
    match ctx.roleName id with
    | some n => "@" ++ n
    | none => "@invalid-role"
  | .userMention id =>
    match ctx.memberNick id with
    | some n => "@" ++ n
    | none => "@invalid-user"
  | .specialMention mention => "@" ++ mention
  | .timestamp stamp format => emitTimestamp ctx stamp format
  | .bold cs => ⟨[fBold]⟩ ++ emitList ctx cs ++ ⟨[fBold]⟩
  | .underline cs => ⟨[fUnderline]⟩ ++ emitList ctx cs ++ ⟨[fUnderline]⟩
  | .italics cs => ⟨[fItalics]⟩ ++ emitList ctx cs ++ ⟨[fItalics]⟩
  | .strikethrough cs => ⟨[fStrikethrough]⟩ ++ emitList ctx cs ++ ⟨[fStrikethrough]⟩

/-- Sibling nodes emit in order into the shared builder. -/
def emitList (ctx : ResolveCtx) : List FormatNode → String
  | [] => ""
  | n :: rest => emitNode ctx n ++ emitList ctx rest

end

/-- discordIRCFormat (main.go lines 536-658): the whole parsed message is a
sibling list under the document root. -/
def discordIRCFormat (ctx : ResolveCtx) (ast : List FormatNode) : String :=
  emitList ctx ast

/-- Attribute-wise ordering of style states: every attribute set in the first
is set in the second. -/
def styleLe (a b : ircStyle) : Prop :=
  (a.italics = true → b.italics = true) ∧ (a.bold = true → b.bold = true) ∧
    (a.underline = true → b.underline = true) ∧
    (a.strikethrough = true → b.strikethrough = true)

/-- A concrete correlation list used to exercise the reply lookups. -/
def gdd : String → List String := fun k => if k = "dd" then ["ia", "ib"] else []

/-! ## Helper lemmas -/

theorem replacerNewline_not_mem : ∀ body : List Char,
    '\r' ∉ replacerNewline body ∧ '\n' ∉ replacerNewline body := by
  intro body
  induction body using replacerNewline.induct with
  | case1 rest ih =>
    simp only [replacerNewline, List.mem_cons, not_or]
    exact ⟨⟨by decide, ih.1⟩, by decide, ih.2⟩
  | case2 rest ih =>
    simp only [replacerNewline, List.mem_cons, not_or]
    exact ⟨⟨by decide, ih.1⟩, by decide, ih.2⟩
  | case3 rest h ih =>
    simp only [replacerNewline, List.mem_cons, not_or]
    exact ⟨⟨by decide, ih.1⟩, by decide, ih.2⟩
  | case4 c rest h1 h2 h3 ih =>
    simp only [replacerNewline, List.mem_cons, not_or]
    exact ⟨⟨fun h => h3 h.symm, ih.1⟩, fun h => h2 h.symm, ih.2⟩
  | case5 =>
    simp [replacerNewline]

/-! ## C1, C2 -/

/-- C1: the claim states that every pair-recording invocation appends
`targetID` to `bySourceID[sourceID]` and `sourceID` to `byTargetID[targetID]`
preserving previously recorded entries in both lists. The discordSend
recording site (main.go line 380) reads `idIRCDiscord[m.ID]` instead of
`idDiscordIRC[m.ID]`, so a second pair recorded against the same target
discards the target list's previous entries: after recording ("ircA","d1")
then ("ircB","d1"), `byTargetID["d1"]` is `["ircB"]`, not `["ircA","ircB"]`. -/
theorem recordPair_send_overwrites_target_list :
    lookupByTarget (recordPairSend (recordPairSend emptyStore "ircA" "d1") "ircB" "d1") "d1"
        = ["ircB"] ∧
    lookupByTarget (recordPairSend emptyStore "ircA" "d1") "d1" = ["ircA"] ∧
    (["ircB"] : List String) ≠ ["ircA", "ircB"] := by
  refine ⟨by decide, by decide, by decide⟩

/-- C2: the claim states that handling an inbound PRIVMSG whose trailing body
parameter is empty (or becomes empty after stripping the reply nick prefix)
completes without a crash. The code (main.go line 504) evaluates `body[0]`
without a length check, which panics on the empty string: both panic inputs
are exhibited (`none` is the panic outcome of the embedded handler step). -/
theorem ircHandler_empty_body_panics :
    privmsgBody ("bridge").data [] [] = none ∧
    privmsgBody ("bridge").data ("d1").data ("bridge: ").data = none := by
  refine ⟨by decide, by decide⟩

/-! ## C5 -/

/-- C5 counterexample: the claim states the output for `\x02hello\x0F world`
is exactly `**hello**` + U+200B + ` world` with no other bytes before,
between, or after; the code also emits a U+200B boundary before `**hello**`
(the boundary is written on every style change with a pending character,
including the opening transition at `h`). -/
theorem discordFormat_example_cex :
    discordFormatStr "\x02hello\x0F world" ≠ "**hello**\u200B world" := by decide

/-- C5 amended: the output for the 13-byte input `\x02hello\x0F world` is
exactly U+200B + `**hello**` + U+200B + ` world`. -/
theorem discordFormat_example_exact :
    discordFormatStr "\x02hello\x0F world" = "\u200B**hello**\u200B world" := by decide

/-! ## C6 -/

/-- C6 counterexample: the claim states both relay directions select the most
recent (last-appended) correlation entry. After recording ("i1","d1") then
("i2","d1"), the Discord-message-reference lookup (main.go line 677,
`ids[0]`) returns the first entry "i1", not the most recent "i2". -/
theorem reply_lookup_cex :
    discordReplyLookup
        (recordPairIRC (recordPairIRC emptyStore "i1" "d1") "i2" "d1").idDiscordIRC "d1"
        = "i1" ∧
    ("i1" : String) ≠ "i2" := by
  refine ⟨by decide, by decide⟩

/-- C6 amended: the IRC reply-tag direction (main.go line 391) selects the
most recent entry — after a new pair is recorded, the lookup for its source
returns the just-recorded target; the Discord message-reference direction
(main.go line 677) selects the first (earliest-recorded) entry of the list. -/
theorem reply_lookup_directions (st : CorrelationStore) (s t ref : String)
    (g : String → List String) (h : g ref ≠ []) :
    ircReplyLookup (recordPairSend st s t).idIRCDiscord s = t ∧
    g ref = discordReplyLookup g ref :: (g ref).tail := by
  constructor
  · show ircReplyLookup (mapAppend st.idIRCDiscord s t) s = t
    unfold ircReplyLookup mapAppend
    simp
  · rcases hg : g ref with _ | ⟨x, rest⟩
    · exact absurd hg h
    · unfold discordReplyLookup
      simp [hg]

theorem reply_lookup_directions_w :
    ircReplyLookup (recordPairSend emptyStore "i9" "d9").idIRCDiscord "i9" = "d9" ∧
    gdd "dd" = discordReplyLookup gdd "dd" :: (gdd "dd").tail :=
  reply_lookup_directions emptyStore "i9" "d9" "dd" gdd (by decide)

/-! ## C9 -/

/-- C9: every CR, LF and CRLF in the formatted body is replaced by a single
space (CRLF collapses to one space, not two), so the resulting text and the
PRIVMSG parameter built from a newline-free prefix contain no newline byte. -/
theorem newline_stripping (pfx body : List Char) :
    ('\r' ∉ replacerNewline body ∧ '\n' ∉ replacerNewline body) ∧
    (∀ rest : List Char, replacerNewline ('\r' :: '\n' :: rest) = ' ' :: replacerNewline rest) ∧
    (('\r' ∉ pfx ∧ '\n' ∉ pfx) →
      '\r' ∉ discordPrivmsgParam pfx body ∧ '\n' ∉ discordPrivmsgParam pfx body) := by
  refine ⟨replacerNewline_not_mem body, fun rest => rfl, fun hp => ?_⟩
  unfold discordPrivmsgParam
  have hb := replacerNewline_not_mem body
  constructor
  · simp only [List.mem_append]
    rintro (h | h)
    · exact hp.1 h
    · exact hb.1 h
  · simp only [List.mem_append]
    rintro (h | h)
    · exact hp.2 h
    · exact hb.2 h

theorem newline_stripping_w :
    '\r' ∉ discordPrivmsgParam ("<bob> ").data ("a\r\nb\rc\nd").data ∧
    '\n' ∉ discordPrivmsgParam ("<bob> ").data ("a\r\nb\rc\nd").data :=
  (newline_stripping ("<bob> ").data ("a\r\nb\rc\nd").data).2.2 (by decide)

/-! ## C10 -/

/-- C10: when the display name (member nickname, or username when the
nickname is empty) is longer than one byte, the sender name is that name with
U+200B inserted immediately after its first rune; otherwise it is unchanged. -/
theorem displayNick_spec (m u : String) :
    (1 < utf8Len (rawNick m u).data →
      (displayNick m u).data =
        (rawNick m u).data.take 1 ++ '\u200B' :: (rawNick m u).data.drop 1) ∧
    (¬ 1 < utf8Len (rawNick m u).data → displayNick m u = rawNick m u) := by
  constructor
  · intro h
    unfold displayNick
    rw [if_pos h]
    rcases hd : (rawNick m u).data with _ | ⟨c, rest⟩
    · rw [hd] at h
      simp [utf8Len] at h
    · simp [hd]
  · intro h
    unfold displayNick
    rw [if_neg h]

theorem displayNick_spec_w :
    (displayNick "bob" "").data = ("b\u200Bob").data ∧ displayNick "" "x" = "x" :=
  ⟨((displayNick_spec "bob" "").1 (by decide)).trans (by decide),
   ((displayNick_spec "" "x").2 (by decide)).trans (by decide)⟩

theorem indexByte_neg_iff : ∀ (s : List Char) (b : Char), indexByte s b < 0 ↔ b ∉ s := by
  intro s b
  induction s with
  | nil => simp [indexByte]
  | cons c rest ih =>
    simp only [indexByte]
    by_cases hc : c = b
    · simp [hc]
    · rw [if_neg hc]
      by_cases hr : indexByte rest b < 0
      · rw [if_pos hr]
        simp only [List.mem_cons, not_or]
        constructor
        · intro _
          exact ⟨fun h => hc h.symm, ih.mp hr⟩
        · intro _
          norm_num
      · rw [if_neg hr]
        have hmem : b ∈ rest := by
          by_contra hn
          exact hr (ih.mpr hn)
        constructor
        · intro h
          omega
        · intro h
          exact absurd (List.mem_cons_of_mem c hmem) h

theorem indexByte_pos_iff : ∀ (s : List Char) (b : Char),
    0 < indexByte s b ↔ (b ∈ s ∧ s.head? ≠ some b) := by
  intro s b
  cases s with
  | nil => simp [indexByte]
  | cons c rest =>
    simp only [indexByte, List.head?_cons]
    by_cases hc : c = b
    · simp [hc]
    · rw [if_neg hc]
      by_cases hr : indexByte rest b < 0
      · rw [if_pos hr]
        have hnm : b ∉ rest := (indexByte_neg_iff rest b).mp hr
        constructor
        · intro h
          norm_num at h
        · rintro ⟨h1, _⟩
          rcases List.mem_cons.mp h1 with h | h
          · exact absurd h.symm hc
          · exact absurd h hnm
      · rw [if_neg hr]
        have hmem : b ∈ rest := by
          by_contra hn
          exact hr ((indexByte_neg_iff rest b).mpr hn)
        constructor
        · intro _
          refine ⟨List.mem_cons_of_mem c hmem, ?_⟩
          simp only [ne_eq, Option.some.injEq]
          exact hc
        · intro _
          omega

/-! Case lemmas for the switch of main.go lines 194-244. -/

theorem switchStep_at_bold (msg : List Char) (i : Nat) (st : ScanState) :
    switchStep msg i st fBold = .emit { st.nextStyle with bold := true } st.raw [] := by
  unfold switchStep
  rw [if_pos rfl]

theorem switchStep_at_italics (msg : List Char) (i : Nat) (st : ScanState) :
    switchStep msg i st fItalics = .emit { st.nextStyle with italics := true } st.raw [] := by
  unfold switchStep
  rw [if_neg (by decide), if_pos rfl]

theorem switchStep_at_underline (msg : List Char) (i : Nat) (st : ScanState) :
    switchStep msg i st fUnderline = .emit { st.nextStyle with underline := true } st.raw [] := by
  unfold switchStep
  rw [if_neg (by decide), if_neg (by decide), if_pos rfl]

theorem switchStep_at_strikethrough (msg : List Char) (i : Nat) (st : ScanState) :
    switchStep msg i st fStrikethrough
      = .emit { st.nextStyle with strikethrough := true } st.raw [] := by
  unfold switchStep
  rw [if_neg (by decide), if_neg (by decide), if_neg (by decide), if_pos rfl]

theorem switchStep_at_reset (msg : List Char) (i : Nat) (st : ScanState) :
    switchStep msg i st fReset = .emit {} st.raw [] := by
  unfold switchStep
  rw [if_neg (by decide), if_neg (by decide), if_neg (by decide), if_neg (by decide), if_pos rfl]

theorem switchStep_at_monoRev (msg : List Char) (i : Nat) (st : ScanState) (c : Char)
    (h : c = fMonospace ∨ c = fReverse) :
    switchStep msg i st c = .skip 0 := by
  rcases h with h | h <;> subst h <;> unfold switchStep <;>
    rw [if_neg (by decide), if_neg (by decide), if_neg (by decide), if_neg (by decide),
      if_neg (by decide), if_pos (by decide)]

theorem switchStep_at_color (msg : List Char) (i : Nat) (st : ScanState) :
    switchStep msg i st fColor = .skip (colorEnd msg i - i) := by
  unfold switchStep
  rw [if_neg (by decide), if_neg (by decide), if_neg (by decide), if_neg (by decide),
    if_neg (by decide), if_neg (by decide), if_pos rfl]

theorem switchStep_at_colorHex (msg : List Char) (i : Nat) (st : ScanState) :
    switchStep msg i st fColorHex = .skip 6 := by
  unfold switchStep
  rw [if_neg (by decide), if_neg (by decide), if_neg (by decide), if_neg (by decide),
    if_neg (by decide), if_neg (by decide), if_neg (by decide), if_pos rfl]

theorem switchStep_at_backquote (msg : List Char) (i : Nat) (st : ScanState) :
    switchStep msg i st backquote =
      if st.raw then .emit st.nextStyle false [backquote]
      else if 0 < indexByte (msg.drop (i + 1)) backquote then .emit st.nextStyle true [backquote]
      else .emit st.nextStyle st.raw [backquote] := by
  unfold switchStep
  rw [if_neg (by decide), if_neg (by decide), if_neg (by decide), if_neg (by decide),
    if_neg (by decide), if_neg (by decide), if_neg (by decide), if_neg (by decide), if_pos rfl]

theorem switchStep_at_escape (msg : List Char) (i : Nat) (st : ScanState) (c : Char)
    (h : c = '\\' ∨ c = '*' ∨ c = '_' ∨ c = '~') :
    switchStep msg i st c =
      if st.urlEnd ≤ i then .emit st.nextStyle st.raw ['\\', c]
      else .emit st.nextStyle st.raw [c] := by
  rcases h with h | h | h | h <;> subst h <;> unfold switchStep <;>
    rw [if_neg (by decide), if_neg (by decide), if_neg (by decide), if_neg (by decide),
      if_neg (by decide), if_neg (by decide), if_neg (by decide), if_neg (by decide),
      if_neg (by decide), if_pos (by decide)]

theorem switchStep_at_other (msg : List Char) (i : Nat) (st : ScanState) (c : Char)
    (h1 : c ≠ fBold) (h2 : c ≠ fItalics) (h3 : c ≠ fUnderline) (h4 : c ≠ fStrikethrough)
    (h5 : c ≠ fReset) (h6 : ¬(c = fMonospace ∨ c = fReverse)) (h7 : c ≠ fColor)
    (h8 : c ≠ fColorHex) (h9 : c ≠ backquote)
    (h10 : ¬(c = '\\' ∨ c = '*' ∨ c = '_' ∨ c = '~')) :
    switchStep msg i st c = .emit st.nextStyle st.raw [c] := by
  unfold switchStep
  rw [if_neg h1, if_neg h2, if_neg h3, if_neg h4, if_neg h5, if_neg h6, if_neg h7,
    if_neg h8, if_neg h9, if_neg h10]

/-! ## C3 -/

/-- C3 counterexample: the claim states a backtick toggles raw mode on iff a
matching closing backtick exists later, including when the close is the
immediately following byte, and that a lone unmatched backtick is emitted
escaped with a preceding backslash. The code (main.go line 228) requires
`strings.IndexByte(msg[i+1:]) > 0` — strictly positive — so an immediately
adjacent close does not toggle raw mode; and line 234 emits the backtick
itself, never a backslash: `discordFormat` maps a lone backtick to itself. -/
theorem backquote_claim_cex :
    discordFormatStr "`" = "`" ∧ ("`" : String) ≠ "\\`" ∧
    switchRaw initScan (switchStep (("``").data ++ [fReset]) 0 initScan backquote) = false ∧
    backquote ∈ (("``").data ++ [fReset]).drop 1 := by
  refine ⟨by decide, by decide, by decide, by decide⟩

/-- C3 amended: outside a raw span, a backtick toggles raw mode on iff a
closing backtick exists later in the remaining input and is not the
immediately following byte (IndexByte of the remainder is strictly positive);
and the backtick itself is always written as a literal unescaped backtick
(never with a backslash), whether or not it toggles raw mode. -/
theorem backquote_toggle_spec (msg : List Char) (i : Nat) (st : ScanState)
    (h : st.raw = false) :
    (switchRaw st (switchStep msg i st backquote) = true ↔
      (backquote ∈ msg.drop (i + 1) ∧ (msg.drop (i + 1)).head? ≠ some backquote)) ∧
    switchWrite (switchStep msg i st backquote) = some [backquote] := by
  rw [switchStep_at_backquote, h]
  by_cases hidx : 0 < indexByte (msg.drop (i + 1)) backquote
  · rw [if_neg (by decide), if_pos hidx]
    refine ⟨?_, rfl⟩
    have hr := (indexByte_pos_iff (msg.drop (i + 1)) backquote).mp hidx
    simp only [switchRaw]
    exact ⟨fun _ => hr, fun _ => trivial⟩
  · rw [if_neg (by decide), if_neg hidx]
    refine ⟨?_, rfl⟩
    simp only [switchRaw]
    constructor
    · intro hf
      simp at hf
    · intro hc
      exact absurd ((indexByte_pos_iff _ _).mpr hc) hidx

theorem backquote_toggle_spec_w :
    (switchRaw initScan (switchStep ("`a`").data 0 initScan backquote) = true ↔
      (backquote ∈ ("`a`").data.drop 1 ∧ (("`a`").data.drop 1).head? ≠ some backquote)) ∧
    switchWrite (switchStep ("`a`").data 0 initScan backquote) = some [backquote] :=
  backquote_toggle_spec ("`a`").data 0 initScan rfl

/-! ## C8 -/

/-- C8: in the switch of main.go lines 194-207, each of the four style marker
bytes sets its attribute in the pending style (never toggles it off, so a
repeated marker leaves it set), and every byte other than the reset marker
leaves all attributes that were set still set — pending attributes are
cleared only by the reset marker. -/
theorem switchStep_styles_set_monotone (msg : List Char) (i : Nat) (st : ScanState) (c : Char) :
    ((c = fBold → (switchNextStyle st (switchStep msg i st c)).bold = true) ∧
      (c = fItalics → (switchNextStyle st (switchStep msg i st c)).italics = true) ∧
      (c = fUnderline → (switchNextStyle st (switchStep msg i st c)).underline = true) ∧
      (c = fStrikethrough → (switchNextStyle st (switchStep msg i st c)).strikethrough = true)) ∧
    (c ≠ fReset → styleLe st.nextStyle (switchNextStyle st (switchStep msg i st c))) := by
  constructor
  · refine ⟨fun hc => ?_, fun hc => ?_, fun hc => ?_, fun hc => ?_⟩ <;> subst hc
    · rw [switchStep_at_bold]
      rfl
    · rw [switchStep_at_italics]
      rfl
    · rw [switchStep_at_underline]
      rfl
    · rw [switchStep_at_strikethrough]
      rfl
  · intro hr
    by_cases h1 : c = fBold
    · subst h1
      rw [switchStep_at_bold]
      exact ⟨fun h => h, fun _ => rfl, fun h => h, fun h => h⟩
    by_cases h2 : c = fItalics
    · subst h2
      rw [switchStep_at_italics]
      exact ⟨fun _ => rfl, fun h => h, fun h => h, fun h => h⟩
    by_cases h3 : c = fUnderline
    · subst h3
      rw [switchStep_at_underline]
      exact ⟨fun h => h, fun h => h, fun _ => rfl, fun h => h⟩
    by_cases h4 : c = fStrikethrough
    · subst h4
      rw [switchStep_at_strikethrough]
      exact ⟨fun h => h, fun h => h, fun h => h, fun _ => rfl⟩
    by_cases h6 : c = fMonospace ∨ c = fReverse
    · rw [switchStep_at_monoRev msg i st c h6]
      exact ⟨fun h => h, fun h => h, fun h => h, fun h => h⟩
    by_cases h7 : c = fColor
    · subst h7
      rw [switchStep_at_color]
      exact ⟨fun h => h, fun h => h, fun h => h, fun h => h⟩
    by_cases h8 : c = fColorHex
    · subst h8
      rw [switchStep_at_colorHex]
      exact ⟨fun h => h, fun h => h, fun h => h, fun h => h⟩
    by_cases h9 : c = backquote
    · subst h9
      rw [switchStep_at_backquote]
      by_cases hraw : st.raw
      · rw [if_pos hraw]
        exact ⟨fun h => h, fun h => h, fun h => h, fun h => h⟩
      · rw [if_neg hraw]
        by_cases hidx : 0 < indexByte (msg.drop (i + 1)) backquote
        · rw [if_pos hidx]
          exact ⟨fun h => h, fun h => h, fun h => h, fun h => h⟩
        · rw [if_neg hidx]
          exact ⟨fun h => h, fun h => h, fun h => h, fun h => h⟩
    by_cases h10 : c = '\\' ∨ c = '*' ∨ c = '_' ∨ c = '~'
    · rw [switchStep_at_escape msg i st c h10]
      by_cases hu : st.urlEnd ≤ i
      · rw [if_pos hu]
        exact ⟨fun h => h, fun h => h, fun h => h, fun h => h⟩
      · rw [if_neg hu]
        exact ⟨fun h => h, fun h => h, fun h => h, fun h => h⟩
    · rw [switchStep_at_other msg i st c h1 h2 h3 h4 hr h6 h7 h8 h9 h10]
      exact ⟨fun h => h, fun h => h, fun h => h, fun h => h⟩

theorem switchStep_styles_set_monotone_w :
    (switchNextStyle initScan (switchStep [] 0 initScan fBold)).bold = true ∧
    styleLe initScan.nextStyle (switchNextStyle initScan (switchStep [] 0 initScan fBold)) :=
  ⟨(switchStep_styles_set_monotone [] 0 initScan fBold).1.1 rfl,
    (switchStep_styles_set_monotone [] 0 initScan fBold).2 (by decide)⟩

theorem emitList_append (ctx : ResolveCtx) (a b : List FormatNode) :
    emitList ctx (a ++ b) = emitList ctx a ++ emitList ctx b := by
  induction a with
  | nil => simp [emitList]
  | cons n rest ih => simp [emitList, ih, String.append_assoc]

/-! ## C7 -/

/-- C7: the markdown tree walker never fails on a resolution or parse
failure: an unresolvable channel, role or user mention, an unparsable
timestamp epoch, and an unknown timestamp format code each emit their literal
placeholder in place, and the rest of the tree (siblings before and after)
is still translated, so the whole message remains deliverable. -/
theorem walker_placeholders (ctx : ResolveCtx) (pre post : List FormatNode)
    (cid rid uid stamp fmt : String) :
    (ctx.channelName cid = none →
      discordIRCFormat ctx (pre ++ FormatNode.channelMention cid :: post) =
        discordIRCFormat ctx pre ++ "#invalid-channel" ++ discordIRCFormat ctx post) ∧
    (ctx.roleName rid = none →
      discordIRCFormat ctx (pre ++ FormatNode.roleMention rid :: post) =
        discordIRCFormat ctx pre ++ "@invalid-role" ++ discordIRCFormat ctx post) ∧
    (ctx.memberNick uid = none →
      discordIRCFormat ctx (pre ++ FormatNode.userMention uid :: post) =
        discordIRCFormat ctx pre ++ "@invalid-user" ++ discordIRCFormat ctx post) ∧
    (parseInt64 stamp = none →
      discordIRCFormat ctx (pre ++ FormatNode.timestamp stamp fmt :: post) =
        discordIRCFormat ctx pre ++ "<invalid-timestamp>" ++ discordIRCFormat ctx post) ∧
    (fmt ∉ knownFormats →
      discordIRCFormat ctx (pre ++ FormatNode.timestamp stamp fmt :: post) =
        discordIRCFormat ctx pre ++ "<invalid-timestamp>" ++ discordIRCFormat ctx post) := by
  unfold discordIRCFormat
  refine ⟨fun h => ?_, fun h => ?_, fun h => ?_, fun h => ?_, fun h => ?_⟩
  · rw [show pre ++ FormatNode.channelMention cid :: post
        = pre ++ [FormatNode.channelMention cid] ++ post by simp]
    rw [emitList_append, emitList_append]
    simp [emitList, emitNode, h, String.append_assoc]
  · rw [show pre ++ FormatNode.roleMention rid :: post
        = pre ++ [FormatNode.roleMention rid] ++ post by simp]
    rw [emitList_append, emitList_append]
    simp [emitList, emitNode, h, String.append_assoc]
  · rw [show pre ++ FormatNode.userMention uid :: post
        = pre ++ [FormatNode.userMention uid] ++ post by simp]
    rw [emitList_append, emitList_append]
    simp [emitList, emitNode, h, String.append_assoc]
  · rw [show pre ++ FormatNode.timestamp stamp fmt :: post
        = pre ++ [FormatNode.timestamp stamp fmt] ++ post by simp]
    rw [emitList_append, emitList_append]
    simp [emitList, emitNode, emitTimestamp, h, String.append_assoc]
  · rw [show pre ++ FormatNode.timestamp stamp fmt :: post
        = pre ++ [FormatNode.timestamp stamp fmt] ++ post by simp]
    rw [emitList_append, emitList_append]
    cases hp : parseInt64 stamp <;>
      simp [emitList, emitNode, emitTimestamp, hp, h, String.append_assoc]

theorem walker_placeholders_w :
    discordIRCFormat ⟨fun _ => none, fun _ => none, fun _ => none, fun _ _ => ""⟩
        ([FormatNode.text "a"] ++ FormatNode.userMention "u" :: [FormatNode.text "b"]) =
      discordIRCFormat ⟨fun _ => none, fun _ => none, fun _ => none, fun _ _ => ""⟩
          [FormatNode.text "a"] ++ "@invalid-user" ++
        discordIRCFormat ⟨fun _ => none, fun _ => none, fun _ => none, fun _ _ => ""⟩
          [FormatNode.text "b"] :=
  (walker_placeholders ⟨fun _ => none, fun _ => none, fun _ => none, fun _ _ => ""⟩
    [FormatNode.text "a"] [FormatNode.text "b"] "c" "r" "u" "5" "z").2.2.1 rfl

/-! ## Scan-state lemmas for the control-code parser -/

theorem scanGo_succ_step (msg : List Char) (fuel i : Nat) (st : ScanState)
    (h : i < msg.length) :
    scanGo msg (fuel + 1) i st =
      if st.raw = true ∧ msg.get ⟨i, h⟩ ≠ backquote then
        scanGo msg fuel (i + 1) { st with out := st.out ++ [msg.get ⟨i, h⟩] }
      else
        match switchStep msg i (urlUpdate msg i st) (msg.get ⟨i, h⟩) with
        | .skip d => scanGo msg fuel (i + 1 + d) (urlUpdate msg i st)
        | .emit ns rw w =>
          if w = [] ∧ i + 1 < msg.length then
            scanGo msg fuel (i + 1) { urlUpdate msg i st with nextStyle := ns, raw := rw }
          else
            scanGo msg fuel (i + 1)
              (emitPart { urlUpdate msg i st with nextStyle := ns, raw := rw } w) := by
  simp only [scanGo]
  rw [dif_pos h]

theorem scanGo_past (msg : List Char) (fuel i : Nat) (st : ScanState)
    (h : msg.length ≤ i) : scanGo msg fuel i st = st := by
  cases fuel with
  | zero => rfl
  | succ fuel =>
    simp only [scanGo]
    rw [dif_neg (by omega)]

theorem urlUpdate_raw (msg : List Char) (i : Nat) (st : ScanState) :
    (urlUpdate msg i st).raw = st.raw := by
  unfold urlUpdate
  split
  · split <;> rfl
  · rfl

theorem emitPart_raw (st : ScanState) (w : List Char) : (emitPart st w).raw = st.raw := by
  unfold emitPart
  by_cases h1 : st.prevStyle = st.nextStyle
  · rw [if_pos h1]
  · rw [if_neg h1]
    by_cases h2 : w = []
    · simp only [if_pos h2]
    · simp only [if_neg h2]

theorem emitPart_nil_prevStyle (st : ScanState) (h : st.nextStyle = ({} : ircStyle)) :
    (emitPart st []).prevStyle = ({} : ircStyle) := by
  unfold emitPart
  by_cases h1 : st.prevStyle = st.nextStyle
  · rw [if_pos h1]
    exact h1.trans h
  · rw [if_neg h1, if_pos rfl]

theorem charAt_eq_get (s : List Char) (i : Nat) (h : i < s.length) :
    charAt s i = s.get ⟨i, h⟩ := by
  unfold charAt
  rw [List.getD_eq_getElem _ _ h]
  rfl

theorem charAt_append_left (msg : List Char) (r : Char) (i : Nat) (h : i < msg.length) :
    charAt (msg ++ [r]) i = charAt msg i := by
  unfold charAt
  rw [List.getD_eq_getElem _ _ (by simp [List.length_append]; omega),
    List.getD_eq_getElem _ _ h]
  exact List.getElem_append_left h

theorem charAt_append_last (msg : List Char) (r : Char) :
    charAt (msg ++ [r]) msg.length = r := by
  unfold charAt
  rw [List.getD_eq_getElem _ _ (by simp [List.length_append])]
  exact List.getElem_concat_length msg r _ rfl _

theorem isDigit_lt (s : List Char) (p : Nat) (h : isDigit s p = true) : p < s.length := by
  unfold isDigit at h
  by_cases hp : p < s.length
  · exact hp
  · rw [if_neg hp] at h
    exact absurd h (by decide)

theorem isDigit_append_reset (msg : List Char) (p : Nat)
    (h : isDigit (msg ++ [fReset]) p = true) : p < msg.length := by
  have hlt := isDigit_lt _ _ h
  rw [List.length_append] at hlt
  by_cases hp : p < msg.length
  · exact hp
  · exfalso
    have hpe : p = msg.length := by simp at hlt; omega
    subst hpe
    unfold isDigit at h
    rw [if_pos (by simp [List.length_append])] at h
    rw [charAt_append_last] at h
    exact absurd h (by decide)

theorem colorEnd_ge (msg : List Char) (i : Nat) : i ≤ colorEnd msg i := by
  unfold colorEnd
  split_ifs <;> omega

theorem colorEnd_cases (msg : List Char) (i : Nat) :
    colorEnd msg i = i ∨ isDigit msg (colorEnd msg i) = true := by
  unfold colorEnd
  split_ifs with h1 h2 h3 h4 h5 h6
  · exact Or.inr h4
  · exact Or.inr h3.1
  · exact Or.inr h2
  · exact Or.inr h6
  · exact Or.inr h5.1
  · exact Or.inr h1
  · exact Or.inl rfl

theorem indexByte_pos_witness (msg : List Char) (i : Nat)
    (h : 0 < indexByte ((msg ++ [fReset]).drop (i + 1)) backquote) :
    ∃ j, i + 1 ≤ j ∧ j < msg.length ∧ charAt (msg ++ [fReset]) j = backquote := by
  have hm := ((indexByte_pos_iff _ _).mp h).1
  rw [List.mem_iff_getElem] at hm
  obtain ⟨k, hk, hkv⟩ := hm
  rw [List.getElem_drop] at hkv
  have hklen : i + 1 + k < (msg ++ [fReset]).length := by
    rw [List.length_drop] at hk
    omega
  refine ⟨i + 1 + k, by omega, ?_, ?_⟩
  · by_contra hc
    push_neg at hc
    have he : i + 1 + k = msg.length := by
      rw [List.length_append] at hklen
      simp at hklen
      omega
    have hF := List.getElem_concat_length msg fReset (i + 1 + k) he hklen
    exact absurd (hkv.symm.trans hF) (by decide)
  · rw [charAt_eq_get _ _ hklen]
    rw [List.get_eq_getElem]
    exact hkv

theorem scan_closes (msg : List Char)
    (hhex : ∀ p, p < msg.length → charAt msg p = fColorHex → p + 6 < msg.length) :
    ∀ fuel i st, msg.length + 1 - i ≤ fuel →
      ((st.raw = false ∧ i ≤ msg.length) ∨
        (st.raw = true ∧ ∃ j, i ≤ j ∧ j < msg.length ∧ charAt (msg ++ [fReset]) j = backquote)) →
      (scanGo (msg ++ [fReset]) fuel i st).prevStyle = ({} : ircStyle) := by
  intro fuel
  induction fuel with
  | zero =>
    intro i st hf hcase
    rcases hcase with ⟨_, hi⟩ | ⟨_, j, hij, hjL, _⟩ <;> omega
  | succ fuel ih =>
    intro i st hf hcase
    have hLen : (msg ++ [fReset]).length = msg.length + 1 := by simp
    have hiL : i ≤ msg.length := by
      rcases hcase with ⟨_, hi⟩ | ⟨_, j, hij, hjL, _⟩ <;> omega
    have hlt : i < (msg ++ [fReset]).length := by omega
    rw [scanGo_succ_step (msg ++ [fReset]) fuel i st hlt]
    rcases hcase with ⟨hraw, _⟩ | ⟨hraw, j, hij, hjL, hjb⟩
    · -- the scan is outside a raw span
      rw [if_neg (by simp [hraw])]
      by_cases hend : i = msg.length
      · -- the position of the virtual reset
        have hc : (msg ++ [fReset]).get ⟨i, hlt⟩ = fReset := by
          subst hend
          rw [List.get_eq_getElem]
          exact List.getElem_concat_length msg fReset msg.length rfl hlt
        rw [hc, switchStep_at_reset]
        dsimp only
        rw [if_neg (by rw [hLen]; intro hx; omega)]
        rw [scanGo_past _ _ _ _ (by rw [hLen]; omega)]
        exact emitPart_nil_prevStyle _ rfl
      · have hiM : i < msg.length := by omega
        by_cases h1 : (msg ++ [fReset]).get ⟨i, hlt⟩ = fBold
        · rw [h1, switchStep_at_bold]
          dsimp only
          rw [if_pos ⟨rfl, by rw [hLen]; omega⟩]
          refine ih _ _ (by omega) (Or.inl ⟨?_, by omega⟩)
          simp [urlUpdate_raw, hraw]
        by_cases h2 : (msg ++ [fReset]).get ⟨i, hlt⟩ = fItalics
        · rw [h2, switchStep_at_italics]
          dsimp only
          rw [if_pos ⟨rfl, by rw [hLen]; omega⟩]
          refine ih _ _ (by omega) (Or.inl ⟨?_, by omega⟩)
          simp [urlUpdate_raw, hraw]
        by_cases h3 : (msg ++ [fReset]).get ⟨i, hlt⟩ = fUnderline
        · rw [h3, switchStep_at_underline]
          dsimp only
          rw [if_pos ⟨rfl, by rw [hLen]; omega⟩]
          refine ih _ _ (by omega) (Or.inl ⟨?_, by omega⟩)
          simp [urlUpdate_raw, hraw]
        by_cases h4 : (msg ++ [fReset]).get ⟨i, hlt⟩ = fStrikethrough
        · rw [h4, switchStep_at_strikethrough]
          dsimp only
          rw [if_pos ⟨rfl, by rw [hLen]; omega⟩]
          refine ih _ _ (by omega) (Or.inl ⟨?_, by omega⟩)
          simp [urlUpdate_raw, hraw]
        by_cases h5 : (msg ++ [fReset]).get ⟨i, hlt⟩ = fReset
        · rw [h5, switchStep_at_reset]
          dsimp only
          rw [if_pos ⟨rfl, by rw [hLen]; omega⟩]
          refine ih _ _ (by omega) (Or.inl ⟨?_, by omega⟩)
          simp [urlUpdate_raw, hraw]
        by_cases h6 : (msg ++ [fReset]).get ⟨i, hlt⟩ = fMonospace ∨
            (msg ++ [fReset]).get ⟨i, hlt⟩ = fReverse
        · rw [switchStep_at_monoRev _ _ _ _ h6]
          dsimp only
          refine ih _ _ (by omega) (Or.inl ⟨?_, by omega⟩)
          simp [urlUpdate_raw, hraw]
        by_cases h7 : (msg ++ [fReset]).get ⟨i, hlt⟩ = fColor
        · rw [h7, switchStep_at_color]
          dsimp only
          have hge := colorEnd_ge (msg ++ [fReset]) i
          have hnext : i + 1 + (colorEnd (msg ++ [fReset]) i - i) ≤ msg.length := by
            rcases colorEnd_cases (msg ++ [fReset]) i with he | hd
            · rw [he]
              omega
            · have := isDigit_append_reset _ _ hd
              omega
          refine ih _ _ (by omega) (Or.inl ⟨?_, hnext⟩)
          simp [urlUpdate_raw, hraw]
        by_cases h8 : (msg ++ [fReset]).get ⟨i, hlt⟩ = fColorHex
        · rw [h8, switchStep_at_colorHex]
          dsimp only
          have hx : charAt msg i = fColorHex := by
            have hq : charAt (msg ++ [fReset]) i = fColorHex := by
              rw [charAt_eq_get _ _ hlt, h8]
            rwa [charAt_append_left msg fReset i hiM] at hq
          have hsk := hhex i hiM hx
          refine ih _ _ (by omega) (Or.inl ⟨?_, by omega⟩)
          simp [urlUpdate_raw, hraw]
        by_cases h9 : (msg ++ [fReset]).get ⟨i, hlt⟩ = backquote
        · rw [h9, switchStep_at_backquote]
          rw [if_neg (by simp [urlUpdate_raw, hraw])]
          by_cases hidx : 0 < indexByte ((msg ++ [fReset]).drop (i + 1)) backquote
          · rw [if_pos hidx]
            dsimp only
            rw [if_neg (by simp)]
            obtain ⟨j2, hj1, hj2, hj3⟩ := indexByte_pos_witness msg i hidx
            refine ih _ _ (by omega) (Or.inr ⟨?_, j2, hj1, hj2, hj3⟩)
            simp [emitPart_raw]
          · rw [if_neg hidx]
            dsimp only
            rw [if_neg (by simp)]
            refine ih _ _ (by omega) (Or.inl ⟨?_, by omega⟩)
            simp [emitPart_raw, urlUpdate_raw, hraw]
        by_cases h10 : (msg ++ [fReset]).get ⟨i, hlt⟩ = '\\' ∨
            (msg ++ [fReset]).get ⟨i, hlt⟩ = '*' ∨
            (msg ++ [fReset]).get ⟨i, hlt⟩ = '_' ∨
            (msg ++ [fReset]).get ⟨i, hlt⟩ = '~'
        · rw [switchStep_at_escape _ _ _ _ h10]
          by_cases hu2 : (urlUpdate (msg ++ [fReset]) i st).urlEnd ≤ i
          · rw [if_pos hu2]
            dsimp only
            rw [if_neg (by simp)]
            refine ih _ _ (by omega) (Or.inl ⟨?_, by omega⟩)
            simp [emitPart_raw, urlUpdate_raw, hraw]
          · rw [if_neg hu2]
            dsimp only
            rw [if_neg (by simp)]
            refine ih _ _ (by omega) (Or.inl ⟨?_, by omega⟩)
            simp [emitPart_raw, urlUpdate_raw, hraw]
        · rw [switchStep_at_other _ _ _ _ h1 h2 h3 h4 h5 h6 h7 h8 h9 h10]
          dsimp only
          rw [if_neg (by simp)]
          refine ih _ _ (by omega) (Or.inl ⟨?_, by omega⟩)
          simp [emitPart_raw, urlUpdate_raw, hraw]
    · -- inside a raw span with a known closing backquote ahead
      have hiM : i < msg.length := by omega
      by_cases hcb : (msg ++ [fReset]).get ⟨i, hlt⟩ = backquote
      · rw [if_neg (fun hx => hx.2 hcb)]
        rw [hcb, switchStep_at_backquote]
        rw [if_pos (by simp [urlUpdate_raw, hraw])]
        dsimp only
        rw [if_neg (by simp)]
        refine ih _ _ (by omega) (Or.inl ⟨?_, by omega⟩)
        simp [emitPart_raw]
      · rw [if_pos ⟨hraw, hcb⟩]
        have hji : j ≠ i := by
          intro he
          subst he
          rw [charAt_eq_get _ _ hlt] at hjb
          exact hcb hjb
        refine ih _ _ (by omega) (Or.inr ⟨?_, j, by omega, hjL, hjb⟩)
        simp [hraw]

/-! ## C4 -/

/-- C4 counterexample: the claim states that for every input (including inputs
ending in a hex-color marker) every emphasis attribute opened in the output is
closed before the end of the output thanks to the virtual reset. The hex-color
case (main.go line 224) advances the index by 6 unconditionally, so a trailing
`\x04` skips past the appended virtual reset: input `\x02a\x04` produces
U+200B `**` `a` with the bold span still open (final prevStyle is bold) and no
closing `**` in the output. -/
theorem discordFormat_orphan_cex :
    (discordFormatFinal ("\x02a\x04").data).prevStyle ≠ ({} : ircStyle) ∧
    discordFormatStr "\x02a\x04" = "\u200B**a" := by
  refine ⟨by decide, by decide⟩

/-- C4 amended: for every input in which every hex-color marker byte is
followed by at least six further bytes of the input, the scan processes the
appended virtual reset, so every emphasis attribute opened in the output is
closed by the end of the output: the final prevStyle — the set of attributes
whose opening markers have been emitted without their closing markers — is
empty. -/
theorem discordFormat_all_styles_closed (msg : List Char)
    (hhex : ∀ p, p < msg.length → charAt msg p = fColorHex → p + 6 < msg.length) :
    (discordFormatFinal msg).prevStyle = ({} : ircStyle) := by
  unfold discordFormatFinal
  exact scan_closes msg hhex (msg.length + 1) 0 initScan (by omega) (Or.inl ⟨rfl, by omega⟩)

theorem discordFormat_all_styles_closed_w :
    (discordFormatFinal ("\x02hi\x1D!").data).prevStyle = ({} : ircStyle) :=
  discordFormat_all_styles_closed ("\x02hi\x1D!").data (by decide)
